import Mathlib

/-
Verification of dmfrbloom (src/dmfrbloom/bloomfilter.py): a Bloom filter
over a packed bit array, with add/lookup, binary persistence, and sizing
formulas.

Embedding notes:
* `bloomfilter.py` is the source of authority.  The BitField class
  (dmfrbloom/bitfield.py) and the murmur hash (mmh3 / dmfrbloom.pymmh3)
  are repository code that is not available here; they are modelled from
  the spec: BitField as a byte buffer with LSB-first get/set, and the hash
  as an arbitrary deterministic seed-parameterized function
  `String → ℕ → ℤ` passed explicitly (the spec leaves the hash algorithm
  free as long as it is deterministic and seed-parameterized).
* Python floats are modelled by real numbers; `int(x)` is truncation
  toward zero and `round(x, 4)` is rounding at 4 decimal places (Python
  rounds ties to even; the model rounds ties up — no value in this file
  sits on a tie).
* Python `%` on integers with a positive modulus yields a value in
  `[0, modulus)`; this is `Int.emod` followed by `Int.toNat`.
-/

/-- Python `int(x)` on a real value: truncation toward zero. -/
noncomputable def pyInt (x : ℝ) : ℤ := if 0 ≤ x then ⌊x⌋ else ⌈x⌉

/-- Python `round(x, 4)`: round at the fourth decimal place. -/
noncomputable def pyRound4 (x : ℝ) : ℝ := (round (x * 10000) : ℤ) / 10000

/-- Modelled from the spec: the missing `dmfrbloom/bitfield.py`.  A
BitField holds `bit_count` addressable bits in a byte buffer of length
`ceil(bit_count / 8)`; bit `index` lives in byte `index / 8` at position
`index % 8` (LSB-first, via left shift by `index % 8`).  Bytes are
naturals; reachable states keep them below 256. -/
structure BitField where
  bit_count : ℕ
  bitfield : List ℕ

/-- Modelled from the spec: `BitField(bit_count)` allocates a zero-filled
byte buffer of length `ceil(bit_count / 8)`. -/
def BitField.new (bit_count : ℕ) : BitField :=
  ⟨bit_count, List.replicate ((bit_count + 7) / 8) 0⟩

/-- Modelled from the spec: set bit `index` to 1 by OR-ing byte
`index / 8` with `1 <<< (index % 8)`. -/
def BitField.setbit (bf : BitField) (index : ℕ) : BitField :=
  { bf with bitfield := bf.bitfield.set (index / 8) (bf.bitfield.getD (index / 8) 0 ||| 2 ^ (index % 8)) }

/-- Modelled from the spec: return whether bit `index` is set. -/
def BitField.getbit (bf : BitField) (index : ℕ) : Bool :=
  (bf.bitfield.getD (index / 8) 0).testBit (index % 8)

/-- The BloomFilter state: `size` (bits), `hashcount` (hashes per
element), and the owned BitField. -/
structure BloomFilter where
  size : ℕ
  hashcount : ℕ
  filter : BitField

/-- The index computed by both `add` and `lookup`:
`mmh3.hash(str(element), seed) % self.size` (Python `%` with a positive
modulus is nonnegative even for a negative hash value). -/
def bloomIndex (hash : String → ℕ → ℤ) (size : ℕ) (element : String)
    (seed : ℕ) : ℕ :=
  (hash element seed % (size : ℤ)).toNat

/-- `BloomFilter.add`: for each seed in `range(hashcount)`, set bit
`mmh3.hash(str(element), seed) % size`. -/
def BloomFilter.add (hash : String → ℕ → ℤ) (bf : BloomFilter)
    (element : String) : BloomFilter :=
  { bf with filter := (List.range bf.hashcount).foldl (fun acc seed => acc.setbit (bloomIndex hash bf.size element seed)) bf.filter }

/-- `BloomFilter.lookup`: return False as soon as one of the `hashcount`
bits is unset, True when all are set. -/
def BloomFilter.lookup (hash : String → ℕ → ℤ) (bf : BloomFilter)
    (element : String) : Bool :=
  (List.range bf.hashcount).all
    (fun seed => bf.filter.getbit (bloomIndex hash bf.size element seed))

/-- A filter state as produced at the end of `__init__`: the given size
and hashcount, and a fresh zero BitField of `size` bits. -/
def BloomFilter.mkFilter (size hashcount : ℕ) : BloomFilter :=
  ⟨size, hashcount, BitField.new size⟩

/-- Add a list of elements in order. -/
def BloomFilter.addAll (hash : String → ℕ → ℤ) (bf : BloomFilter)
    (elements : List String) : BloomFilter :=
  elements.foldl (BloomFilter.add hash) bf

/-- `add` on an arbitrary element: the code serializes via
`str(element)` before hashing. -/
def BloomFilter.addElem {α : Type} [ToString α]
    (hash : String → ℕ → ℤ) (bf : BloomFilter) (e : α) : BloomFilter :=
  bf.add hash (toString e)

/-- `lookup` on an arbitrary element, serialized via `str(element)`. -/
def BloomFilter.lookupElem {α : Type} [ToString α]
    (hash : String → ℕ → ℤ) (bf : BloomFilter) (e : α) : Bool :=
  bf.lookup hash (toString e)

/-- Little-endian byte serialization: Python
`v.to_bytes(n, byteorder="little")` (defined for `v < 256 ^ n`). -/
def toBytesLE : ℕ → ℕ → List ℕ
  | 0, _ => []
  | n + 1, v => v % 256 :: toBytesLE n (v / 256)

/-- Little-endian byte deserialization: Python
`int.from_bytes(l, byteorder="little")`. -/
def fromBytesLE (l : List ℕ) : ℕ :=
  l.foldr (fun b acc => b + 256 * acc) 0

/-- `BloomFilter.save`: the written file is `size` in 16 little-endian
bytes, `hashcount` in 16 little-endian bytes, then the raw bit buffer.
`int.to_bytes(16, ...)` raises for values at or above `256^16`; that case
is `none`. -/
def BloomFilter.save (bf : BloomFilter) : Option (List ℕ) :=
  if bf.size < 256 ^ 16 ∧ bf.hashcount < 256 ^ 16 then
    some (toBytesLE 16 bf.size ++ toBytesLE 16 bf.hashcount ++
      bf.filter.bitfield)
  else none

/-- `BloomFilter.load`: read the first 16 bytes as `size`, the next 16 as
`hashcount`, and the remainder as the raw bit buffer, overwriting the
fields of the receiver (the BitField's `bit_count` is left untouched by
the code). -/
def BloomFilter.load (bf : BloomFilter) (data : List ℕ) : BloomFilter :=
  { size := fromBytesLE (data.take 16),
    hashcount := fromBytesLE ((data.drop 16).take 16),
    filter := { bf.filter with bitfield := data.drop 32 } }

/-- `BloomFilter.ideal_size`:
`int(-(expected * log(fp_rate)) / (log(2) ** 2))`. -/
noncomputable def BloomFilter.ideal_size (expected : ℕ) (fp_rate : ℝ) : ℤ :=
  pyInt (-(expected * Real.log fp_rate) / Real.log 2 ^ 2)

/-- The size formula as the spec words it:
`ceil(-(expected_items * ln(fp_rate)) / (ln(2)^2))`. -/
noncomputable def spec_ideal_size (expected : ℕ) (fp_rate : ℝ) : ℤ :=
  ⌈-(expected * Real.log fp_rate) / Real.log 2 ^ 2⌉

/-- `BloomFilter.ideal_hashcount`:
`int((self.size / int(expected)) * log(2))`, where `self.size` is the
already-truncated integer size. -/
noncomputable def BloomFilter.ideal_hashcount (size : ℤ) (expected : ℕ) : ℤ :=
  pyInt ((size : ℝ) / (expected : ℝ) * Real.log 2)

/-- `BloomFilter.__init__`: derive `size` and `hashcount` and allocate the
BitField.  No parameter validation of any kind is performed. -/
noncomputable def BloomFilter.init (expected : ℕ) (fp_rate : ℝ) : BloomFilter :=
  { size := (BloomFilter.ideal_size expected fp_rate).toNat,
    hashcount :=
      (BloomFilter.ideal_hashcount (BloomFilter.ideal_size expected fp_rate)
        expected).toNat,
    filter := BitField.new (BloomFilter.ideal_size expected fp_rate).toNat }

/-- `BloomFilter.accuracy`: the returned value paired with the trace of
values printed to stdout (the code executes
`print('FALSE: ', false_positive)` before returning). -/
noncomputable def BloomFilter.accuracy (size hashcount elements : ℕ) :
    ℝ × List ℝ :=
  (pyRound4 (100 -
      (1 - (1 - 1 / (size : ℝ)) ^ (hashcount * elements)) ^ hashcount * 100),
   [(1 - (1 - 1 / (size : ℝ)) ^ (hashcount * elements)) ^ hashcount])

/-- `BloomFilter.bytesize`: `ceil(self.size / 8)`. -/
def BloomFilter.bytesize (size : ℕ) : ℕ := (size + 7) / 8

/-- `BloomFilter.bytesize_human`, as the pair (rounded scaled value,
suffix order).  The order is
`int(log(ceil(self.size) / 8, 2) / 10) if self.size else 0` — note the
true division `size / 8`, not the rounded-up byte count — and the scaled
value is `round(ceil(self.size / 8) / (1 << (order * 10)), 4)`. -/
noncomputable def BloomFilter.bytesize_human (size : ℕ) : ℝ × ℕ :=
  ((pyRound4 ((BloomFilter.bytesize size : ℝ) /
      ((2 : ℝ) ^ (((if size = 0 then 0 else
        pyInt (Real.logb 2 ((size : ℝ) / 8) / 10)).toNat) * 10)))),
   (if size = 0 then 0 else
     pyInt (Real.logb 2 ((size : ℝ) / 8) / 10)).toNat)

/-- The human-readable size as the spec words it: the largest suffix
order such that the scaled byte count is still at least 1, i.e.
`Nat.log 1024` of the byte count. -/
noncomputable def spec_bytesize_human (size : ℕ) : ℝ × ℕ :=
  (pyRound4 ((BloomFilter.bytesize size : ℝ) /
      ((2 : ℝ) ^ (Nat.log 1024 (BloomFilter.bytesize size) * 10))),
   Nat.log 1024 (BloomFilter.bytesize size))

/-! ### Helper lemmas about the BitField model -/

theorem BitField.length_setbit (bf : BitField) (i : ℕ) :
    (bf.setbit i).bitfield.length = bf.bitfield.length :=
  List.length_set ..

theorem BitField.getbit_setbit_self (bf : BitField) (i : ℕ)
    (h : i / 8 < bf.bitfield.length) : (bf.setbit i).getbit i = true := by
  unfold BitField.getbit BitField.setbit
  simp only [List.getD_eq_getElem?_getD, List.getElem?_set_eq_of_lt _ h,
    Option.getD_some]
  simp [Nat.testBit_or, Nat.testBit_two_pow_self]

theorem BitField.getbit_setbit_mono (bf : BitField) (i j : ℕ)
    (h : bf.getbit i = true) : (bf.setbit j).getbit i = true := by
  unfold BitField.getbit at h ⊢
  unfold BitField.setbit
  by_cases hlen : j / 8 < bf.bitfield.length
  · by_cases hij : j / 8 = i / 8
    · rw [hij] at hlen ⊢
      simp only [List.getD_eq_getElem?_getD, List.getElem?_set_eq_of_lt _ hlen,
        Option.getD_some] at h ⊢
      simp [Nat.testBit_or, h]
    · simp only [List.getD_eq_getElem?_getD, List.getElem?_set_ne hij] at h ⊢
      exact h
  · show ((bf.bitfield.set _ _).getD _ 0).testBit _ = true
    rw [List.set_eq_of_length_le (Nat.le_of_not_lt hlen)]
    exact h

/-- The reduction modulo `size` lands in `[0, size)` whenever `size` is
positive, whatever integer the hash returned. -/
theorem bloomIndex_lt_of_pos (hash : String → ℕ → ℤ) (size : ℕ)
    (element : String) (seed : ℕ) (h : 0 < size) :
    bloomIndex hash size element seed < size := by
  unfold bloomIndex
  have hz : (size : ℤ) ≠ 0 := by positivity
  have h1 : hash element seed % (size : ℤ) < (size : ℤ) :=
    Int.emod_lt_of_pos _ (by exact_mod_cast h)
  have h2 : 0 ≤ hash element seed % (size : ℤ) := Int.emod_nonneg _ hz
  omega

theorem foldl_setbit_length (idx : ℕ → ℕ) (l : List ℕ) (acc : BitField) :
    (l.foldl (fun a s => a.setbit (idx s)) acc).bitfield.length =
      acc.bitfield.length := by
  induction l generalizing acc with
  | nil => rfl
  | cons hd tl ih => rw [List.foldl_cons, ih, BitField.length_setbit]

theorem foldl_setbit_getbit_mono (idx : ℕ → ℕ) (l : List ℕ) (acc : BitField)
    (i : ℕ) (h : acc.getbit i = true) :
    (l.foldl (fun a s => a.setbit (idx s)) acc).getbit i = true := by
  induction l generalizing acc with
  | nil => exact h
  | cons hd tl ih => exact ih _ (BitField.getbit_setbit_mono _ _ _ h)

theorem foldl_setbit_getbit_of_mem (idx : ℕ → ℕ) (l : List ℕ) (acc : BitField)
    (s : ℕ) (hs : s ∈ l) (hlen : idx s / 8 < acc.bitfield.length) :
    (l.foldl (fun a s => a.setbit (idx s)) acc).getbit (idx s) = true := by
  induction l generalizing acc with
  | nil => cases hs
  | cons hd tl ih =>
    rw [List.foldl_cons]
    rcases List.mem_cons.mp hs with heq | hmem
    · subst heq
      exact foldl_setbit_getbit_mono _ _ _ _ (BitField.getbit_setbit_self _ _ hlen)
    · exact ih _ hmem (by rw [BitField.length_setbit]; exact hlen)

theorem BloomFilter.add_size (hash : String → ℕ → ℤ) (bf : BloomFilter)
    (e : String) : (bf.add hash e).size = bf.size := rfl

theorem BloomFilter.add_hashcount (hash : String → ℕ → ℤ) (bf : BloomFilter)
    (e : String) : (bf.add hash e).hashcount = bf.hashcount := rfl

theorem BloomFilter.add_length (hash : String → ℕ → ℤ) (bf : BloomFilter)
    (e : String) :
    (bf.add hash e).filter.bitfield.length = bf.filter.bitfield.length :=
  foldl_setbit_length _ _ _

theorem BloomFilter.add_getbit_mono (hash : String → ℕ → ℤ) (bf : BloomFilter)
    (e : String) (i : ℕ) (h : bf.filter.getbit i = true) :
    (bf.add hash e).filter.getbit i = true :=
  foldl_setbit_getbit_mono _ _ _ _ h

theorem BloomFilter.add_getbit_self (hash : String → ℕ → ℤ) (bf : BloomFilter)
    (e : String) (seed : ℕ) (hseed : seed < bf.hashcount)
    (hlen : bloomIndex hash bf.size e seed / 8 < bf.filter.bitfield.length) :
    (bf.add hash e).filter.getbit (bloomIndex hash bf.size e seed) = true :=
  foldl_setbit_getbit_of_mem _ _ _ seed (List.mem_range.mpr hseed) hlen

theorem BloomFilter.addAll_size (hash : String → ℕ → ℤ) (bf : BloomFilter)
    (es : List String) : (bf.addAll hash es).size = bf.size := by
  induction es generalizing bf with
  | nil => rfl
  | cons hd tl ih => exact ih _

theorem BloomFilter.addAll_hashcount (hash : String → ℕ → ℤ)
    (bf : BloomFilter) (es : List String) :
    (bf.addAll hash es).hashcount = bf.hashcount := by
  induction es generalizing bf with
  | nil => rfl
  | cons hd tl ih => exact ih _

theorem BloomFilter.addAll_length (hash : String → ℕ → ℤ) (bf : BloomFilter)
    (es : List String) :
    (bf.addAll hash es).filter.bitfield.length = bf.filter.bitfield.length := by
  induction es generalizing bf with
  | nil => rfl
  | cons hd tl ih => rw [BloomFilter.addAll, List.foldl_cons]
                     exact (ih _).trans (BloomFilter.add_length _ _ _)

theorem BloomFilter.addAll_getbit_mono (hash : String → ℕ → ℤ)
    (bf : BloomFilter) (es : List String) (i : ℕ)
    (h : bf.filter.getbit i = true) :
    (bf.addAll hash es).filter.getbit i = true := by
  induction es generalizing bf with
  | nil => exact h
  | cons hd tl ih => exact ih _ (BloomFilter.add_getbit_mono _ _ _ _ h)

/-! ### Claim theorems -/

/-- C1: no false negatives.  For a filter constructed with size ≥ 1 and
hashcount ≥ 1, after `add(filter, e)`, `lookup(filter, e)` returns true,
whatever other elements were added before (`pre`) or after (`post`). -/
theorem no_false_negatives (hash : String → ℕ → ℤ) (size hashcount : ℕ)
    (pre post : List String) (e : String)
    (hsize : 1 ≤ size) (hhc : 1 ≤ hashcount) :
    BloomFilter.lookup hash
      (BloomFilter.addAll hash
        (BloomFilter.add hash
          (BloomFilter.addAll hash (BloomFilter.mkFilter size hashcount) pre)
          e)
        post) e = true := by
  have h0size : (BloomFilter.addAll hash (BloomFilter.mkFilter size hashcount)
      pre).size = size := BloomFilter.addAll_size _ _ _
  have h0hc : (BloomFilter.addAll hash (BloomFilter.mkFilter size hashcount)
      pre).hashcount = hashcount := BloomFilter.addAll_hashcount _ _ _
  have h0len : (BloomFilter.addAll hash (BloomFilter.mkFilter size hashcount)
      pre).filter.bitfield.length = (size + 7) / 8 := by
    rw [BloomFilter.addAll_length]
    simp [BloomFilter.mkFilter, BitField.new]
  unfold BloomFilter.lookup
  rw [List.all_eq_true]
  intro seed hseed
  rw [BloomFilter.addAll_hashcount, BloomFilter.add_hashcount, h0hc] at hseed
  rw [BloomFilter.addAll_size, BloomFilter.add_size, h0size]
  apply BloomFilter.addAll_getbit_mono
  have hidx : bloomIndex hash size e seed < size :=
    bloomIndex_lt_of_pos hash size e seed hsize
  have := BloomFilter.add_getbit_self hash
    (BloomFilter.addAll hash (BloomFilter.mkFilter size hashcount) pre) e seed
    (by rw [h0hc]; exact List.mem_range.mp hseed)
    (by rw [h0size, h0len]
        have hx := bloomIndex_lt_of_pos hash size e seed hsize
        omega)
  rw [h0size] at this
  exact this

/-- C1 witness: a concrete instantiation with size 16, hashcount 2, a
seed-valued hash, one element added before and one after. -/
theorem no_false_negatives_witness :
    1 ≤ 16 ∧ 1 ≤ 2 ∧
    BloomFilter.lookup (fun s n => (s.length : ℤ) + n)
      (BloomFilter.addAll (fun s n => (s.length : ℤ) + n)
        (BloomFilter.add (fun s n => (s.length : ℤ) + n)
          (BloomFilter.addAll (fun s n => (s.length : ℤ) + n)
            (BloomFilter.mkFilter 16 2) ["aa"])
          "bloom")
        ["zz"]) "bloom" = true :=
  ⟨by decide, by decide,
    no_false_negatives (fun s n => (s.length : ℤ) + n) 16 2 ["aa"] ["zz"]
      "bloom" (by decide) (by decide)⟩

/-- C8: in-range bit indexing.  For any filter size ≥ 1, any element and
any seed, the index `hash(str(element), seed) % size` computed by both
`add` and `lookup` is a valid bit position below `size`, even when the
hash value is negative. -/
theorem bloom_index_in_range (hash : String → ℕ → ℤ) (size : ℕ)
    (element : String) (seed : ℕ) (h : 1 ≤ size) :
    bloomIndex hash size element seed < size :=
  bloomIndex_lt_of_pos hash size element seed h

/-- C8 witness: a hash that returns the negative value -7 still yields the
in-range bit position 2 for size 3. -/
theorem bloom_index_in_range_witness :
    1 ≤ 3 ∧ bloomIndex (fun _ _ => (-7 : ℤ)) 3 "x" 0 < 3 ∧
    bloomIndex (fun _ _ => (-7 : ℤ)) 3 "x" 0 = 2 :=
  ⟨by decide, bloom_index_in_range (fun _ _ => (-7 : ℤ)) 3 "x" 0 (by decide),
    by decide⟩

/-- C4 counterexample: a filter with hashcount 0 (and size 1) on which
`lookup` returns true — not false as the claim states — because the seed
loop body never runs and the function falls through to `return True`. -/
theorem lookup_hashcount_zero_cex :
    BloomFilter.lookup (fun _ seed => (seed : ℤ)) (BloomFilter.mkFilter 1 0)
      "x" = true := by decide

/-- C4 amended: for a filter whose hashcount is 0, `lookup` returns true
(reports membership) for every element: with zero seeds the all-bits-set
check is vacuous. -/
theorem lookup_hashcount_zero (hash : String → ℕ → ℤ) (bf : BloomFilter)
    (element : String) (h : bf.hashcount = 0) :
    bf.lookup hash element = true := by
  unfold BloomFilter.lookup
  rw [h]
  rfl

/-- C4 amended witness: the hashcount-0 filter of size 1 answers true on a
concrete element. -/
theorem lookup_hashcount_zero_witness :
    (BloomFilter.mkFilter 1 0).hashcount = 0 ∧
    BloomFilter.lookup (fun _ seed => (seed : ℤ)) (BloomFilter.mkFilter 1 0)
      "y" = true :=
  ⟨by decide, lookup_hashcount_zero (fun _ seed => (seed : ℤ))
    (BloomFilter.mkFilter 1 0) "y" (by decide)⟩

/-- C10: membership depends on the element only through its string
serialization.  If `str(a) = str(b)` then `add` produces identical filter
states and `lookup` identical answers on any state. -/
theorem membership_depends_on_str {α β : Type} [ToString α] [ToString β]
    (hash : String → ℕ → ℤ) (f g : BloomFilter) (a : α) (b : β)
    (h : toString a = toString b) :
    BloomFilter.addElem hash f a = BloomFilter.addElem hash f b ∧
    BloomFilter.lookupElem hash g a = BloomFilter.lookupElem hash g b := by
  unfold BloomFilter.addElem BloomFilter.lookupElem
  rw [h]
  exact ⟨rfl, rfl⟩

/-- C10 witness: the integer 1 and the string "1" serialize alike, so they
are interchangeable for add and lookup on concrete filters. -/
theorem membership_depends_on_str_witness :
    toString (1 : ℤ) = "1" ∧
    (BloomFilter.addElem (fun s n => (s.length : ℤ) + n)
        (BloomFilter.mkFilter 8 2) (1 : ℤ) =
      BloomFilter.addElem (fun s n => (s.length : ℤ) + n)
        (BloomFilter.mkFilter 8 2) "1" ∧
    BloomFilter.lookupElem (fun s n => (s.length : ℤ) + n)
        (BloomFilter.mkFilter 8 2) (1 : ℤ) =
      BloomFilter.lookupElem (fun s n => (s.length : ℤ) + n)
        (BloomFilter.mkFilter 8 2) "1") :=
  ⟨by decide,
    membership_depends_on_str (fun s n => (s.length : ℤ) + n)
      (BloomFilter.mkFilter 8 2) (BloomFilter.mkFilter 8 2) (1 : ℤ) "1"
      (by decide)⟩

theorem length_toBytesLE (n v : ℕ) : (toBytesLE n v).length = n := by
  induction n generalizing v with
  | zero => rfl
  | succ m ih => simp [toBytesLE, ih]

theorem fromBytesLE_toBytesLE (n v : ℕ) (h : v < 256 ^ n) :
    fromBytesLE (toBytesLE n v) = v := by
  induction n generalizing v with
  | zero =>
    simp only [pow_zero, Nat.lt_one_iff] at h
    simp [h, toBytesLE, fromBytesLE]
  | succ m ih =>
    have hdiv : v / 256 < 256 ^ m := by
      rw [Nat.div_lt_iff_lt_mul (by norm_num)]
      calc v < 256 ^ (m + 1) := h
        _ = 256 ^ m * 256 := by ring
    have := ih (v / 256) hdiv
    simp only [toBytesLE, fromBytesLE, List.foldr_cons] at this ⊢
    rw [this]
    omega

/-- `lookup` reads only `size`, `hashcount` and the raw byte buffer, so
two filters agreeing on those three answer alike. -/
theorem BloomFilter.lookup_congr (hash : String → ℕ → ℤ)
    (a b : BloomFilter) (e : String) (hs : a.size = b.size)
    (hh : a.hashcount = b.hashcount)
    (hb : a.filter.bitfield = b.filter.bitfield) :
    a.lookup hash e = b.lookup hash e := by
  unfold BloomFilter.lookup BitField.getbit
  rw [hs, hh, hb]

/-- C2: round-trip persistence.  When `save` succeeds (the written bytes
are `data`), loading `data` into any filter restores `size`, `hashcount`
and the raw bit buffer of the saved filter, and hence answers every
`lookup` exactly as the saved filter does. -/
theorem save_load_roundtrip (bf g : BloomFilter) (data : List ℕ)
    (hash : String → ℕ → ℤ) (e : String) (h : bf.save = some data) :
    (g.load data).size = bf.size ∧
    (g.load data).hashcount = bf.hashcount ∧
    (g.load data).filter.bitfield = bf.filter.bitfield ∧
    (g.load data).lookup hash e = bf.lookup hash e := by
  unfold BloomFilter.save at h
  by_cases hok : bf.size < 256 ^ 16 ∧ bf.hashcount < 256 ^ 16
  · rw [if_pos hok, Option.some_inj] at h
    subst h
    have hlen1 : (toBytesLE 16 bf.size).length = 16 := length_toBytesLE 16 _
    have hlen2 : (toBytesLE 16 bf.hashcount).length = 16 := length_toBytesLE 16 _
    have htake : ((toBytesLE 16 bf.size ++ toBytesLE 16 bf.hashcount ++
        bf.filter.bitfield)).take 16 = toBytesLE 16 bf.size := by
      rw [List.append_assoc]
      exact List.take_left' hlen1
    have hdrop : ((toBytesLE 16 bf.size ++ toBytesLE 16 bf.hashcount ++
        bf.filter.bitfield)).drop 16 =
        toBytesLE 16 bf.hashcount ++ bf.filter.bitfield := by
      rw [List.append_assoc]
      exact List.drop_left' hlen1
    have hdrop32 : ((toBytesLE 16 bf.size ++ toBytesLE 16 bf.hashcount ++
        bf.filter.bitfield)).drop 32 = bf.filter.bitfield := by
      rw [show (32 : ℕ) = 16 + 16 from rfl, ← List.drop_drop, hdrop]
      exact List.drop_left' hlen2
    have hsz : (g.load (toBytesLE 16 bf.size ++ toBytesLE 16 bf.hashcount ++
        bf.filter.bitfield)).size = bf.size := by
      unfold BloomFilter.load
      rw [htake]
      exact fromBytesLE_toBytesLE 16 _ hok.1
    have hhc : (g.load (toBytesLE 16 bf.size ++ toBytesLE 16 bf.hashcount ++
        bf.filter.bitfield)).hashcount = bf.hashcount := by
      unfold BloomFilter.load
      rw [hdrop, List.take_left' hlen2]
      exact fromBytesLE_toBytesLE 16 _ hok.2
    have hbuf : (g.load (toBytesLE 16 bf.size ++ toBytesLE 16 bf.hashcount ++
        bf.filter.bitfield)).filter.bitfield = bf.filter.bitfield := by
      unfold BloomFilter.load
      exact hdrop32
    exact ⟨hsz, hhc, hbuf,
      BloomFilter.lookup_congr hash _ bf e hsz hhc hbuf⟩
  · rw [if_neg hok] at h
    cases h

/-- C2 witness: a concrete filter of size 3 and hashcount 2 with one bit
set, saved to its 33-byte image and loaded back. -/
theorem save_load_roundtrip_witness :
    ((BloomFilter.mkFilter 3 2).load
        (toBytesLE 16 3 ++ toBytesLE 16 2 ++ [0])).size =
      (BloomFilter.mkFilter 3 2).size ∧
    ((BloomFilter.mkFilter 3 2).load
        (toBytesLE 16 3 ++ toBytesLE 16 2 ++ [0])).hashcount =
      (BloomFilter.mkFilter 3 2).hashcount ∧
    ((BloomFilter.mkFilter 3 2).load
        (toBytesLE 16 3 ++ toBytesLE 16 2 ++ [0])).filter.bitfield =
      (BloomFilter.mkFilter 3 2).filter.bitfield ∧
    ((BloomFilter.mkFilter 3 2).load
        (toBytesLE 16 3 ++ toBytesLE 16 2 ++ [0])).lookup
        (fun s n => (s.length : ℤ) + n) "x" =
      (BloomFilter.mkFilter 3 2).lookup (fun s n => (s.length : ℤ) + n) "x" :=
  save_load_roundtrip (BloomFilter.mkFilter 3 2) (BloomFilter.mkFilter 3 2)
    (toBytesLE 16 3 ++ toBytesLE 16 2 ++ [0])
    (fun s n => (s.length : ℤ) + n) "x" (by decide)

theorem round_mono_real (x y : ℝ) (h : x ≤ y) : round x ≤ round y := by
  rw [round_eq, round_eq]
  exact Int.floor_mono (by linarith)

theorem pyRound4_mono (x y : ℝ) (h : x ≤ y) : pyRound4 x ≤ pyRound4 y := by
  unfold pyRound4
  have h1 : round (x * 10000) ≤ round (y * 10000) :=
    round_mono_real _ _ (by linarith)
  have h2 : ((round (x * 10000) : ℤ) : ℝ) ≤ ((round (y * 10000) : ℤ) : ℝ) := by
    exact_mod_cast h1
  linarith

/-- C7: monotonic false-positive growth.  With size and hashcount fixed
(both at least 1), the reported accuracy never increases as the element
count grows: `accuracy(size, hashcount, n2) ≤ accuracy(size, hashcount,
n1)` whenever `n1 < n2`. -/
theorem accuracy_monotone_fp (size hashcount n1 n2 : ℕ)
    (hsize : 1 ≤ size) (hhc : 1 ≤ hashcount) (h : n1 < n2) :
    (BloomFilter.accuracy size hashcount n2).1 ≤
      (BloomFilter.accuracy size hashcount n1).1 := by
  unfold BloomFilter.accuracy
  apply pyRound4_mono
  have hs : (1 : ℝ) ≤ (size : ℝ) := by exact_mod_cast hsize
  have hb0 : 0 ≤ 1 - 1 / (size : ℝ) := by
    have h1 : 1 / (size : ℝ) ≤ 1 := by
      rw [div_le_one (by linarith)]
      exact hs
    linarith
  have hb1 : 1 - 1 / (size : ℝ) ≤ 1 := by
    have h0 : 0 ≤ 1 / (size : ℝ) := by positivity
    linarith
  have hexp : hashcount * n1 ≤ hashcount * n2 :=
    Nat.mul_le_mul_left _ (le_of_lt h)
  have hp : (1 - 1 / (size : ℝ)) ^ (hashcount * n2) ≤
      (1 - 1 / (size : ℝ)) ^ (hashcount * n1) :=
    pow_le_pow_of_le_one hb0 hb1 hexp
  have hp1 : (1 - 1 / (size : ℝ)) ^ (hashcount * n1) ≤ 1 :=
    pow_le_one₀ hb0 hb1
  have hinner0 : 0 ≤ 1 - (1 - 1 / (size : ℝ)) ^ (hashcount * n1) := by linarith
  have hfp : (1 - (1 - 1 / (size : ℝ)) ^ (hashcount * n1)) ^ hashcount ≤
      (1 - (1 - 1 / (size : ℝ)) ^ (hashcount * n2)) ^ hashcount :=
    pow_le_pow_left₀ hinner0 (by linarith) hashcount
  linarith

/-- C7 witness: size 2, hashcount 1, comparing 0 and 1 elements. -/
theorem accuracy_monotone_fp_witness :
    1 ≤ 2 ∧ 1 ≤ 1 ∧ 0 < 1 ∧
    (BloomFilter.accuracy 2 1 1).1 ≤ (BloomFilter.accuracy 2 1 0).1 :=
  ⟨by decide, by decide, by decide,
    accuracy_monotone_fp 2 1 0 1 (by decide) (by decide) (by decide)⟩

/-- C6 (code bug): `accuracy` is not free of side effects — every call
prints the intermediate false-positive value (`print('FALSE: ', ...)`),
so its stdout trace is never empty, although the returned value is the
claimed rounded percentage. -/
theorem accuracy_print_trace_nonempty (size hashcount elements : ℕ) :
    (BloomFilter.accuracy size hashcount elements).2 ≠ [] := by
  unfold BloomFilter.accuracy
  simp

theorem ideal_size_one_half : BloomFilter.ideal_size 1 (1 / 2) = 1 := by
  unfold BloomFilter.ideal_size pyInt
  have hlb := Real.log_two_gt_d9
  have hub := Real.log_two_lt_d9
  have hpos : 0 < Real.log 2 := by linarith
  have hx : -(((1 : ℕ) : ℝ) * Real.log (1 / 2)) / Real.log 2 ^ 2 =
      1 / Real.log 2 := by
    rw [one_div, Real.log_inv]
    push_cast
    field_simp
    ring
  rw [hx, if_pos (by positivity)]
  rw [show (1 : ℤ) = ((1 : ℤ)) from rfl, Int.floor_eq_iff]
  constructor
  · rw [Int.cast_one, le_div_iff hpos]
    linarith
  · rw [Int.cast_one, div_lt_iff hpos]
    linarith

theorem ideal_hashcount_one_one : BloomFilter.ideal_hashcount 1 1 = 0 := by
  unfold BloomFilter.ideal_hashcount pyInt
  have hlb := Real.log_two_gt_d9
  have hub := Real.log_two_lt_d9
  have hx : ((1 : ℤ) : ℝ) / ((1 : ℕ) : ℝ) * Real.log 2 = Real.log 2 := by
    push_cast
    ring
  rw [hx, if_pos (by linarith)]
  rw [show (0 : ℤ) = ((0 : ℤ)) from rfl, Int.floor_eq_iff]
  constructor
  · rw [Int.cast_zero]
    linarith
  · rw [Int.cast_zero]
    linarith

/-- C3 (code bug): `__init__` performs no validation at all.  With the
perfectly valid parameters `expected_items = 1, fp_rate = 0.5` it silently
constructs a filter with `hashcount = 0` (and `size = 1`), instead of
failing with `InvalidParameters` as the claim requires. -/
theorem init_silently_builds_hashcount_zero :
    (BloomFilter.init 1 (1 / 2)).hashcount = 0 ∧
    (BloomFilter.init 1 (1 / 2)).size = 1 := by
  unfold BloomFilter.init
  rw [ideal_size_one_half]
  rw [ideal_hashcount_one_one]
  exact ⟨rfl, rfl⟩

theorem log_ratio_lb : (9585 : ℝ) * Real.log 2 ^ 2 < 2000 * Real.log 10 := by
  have hp : (2 : ℝ) ^ (2621 : ℕ) < (10 : ℝ) ^ (789 : ℕ) := by
    have h : (2 : ℕ) ^ 2621 < 10 ^ 789 := by norm_num
    exact_mod_cast h
  have h1 : (2621 : ℝ) * Real.log 2 < 789 * Real.log 10 := by
    have hl := Real.log_lt_log (by positivity) hp
    rw [Real.log_pow, Real.log_pow] at hl
    exact_mod_cast hl
  have hub := Real.log_two_lt_d9
  have hpos : (0 : ℝ) < Real.log 2 := by linarith [Real.log_two_gt_d9]
  rw [pow_two]
  linarith [mul_lt_mul_of_pos_right hub hpos]

theorem log_ratio_ub : 2000 * Real.log 10 < (9586 : ℝ) * Real.log 2 ^ 2 := by
  have hp : (10 : ℝ) ^ (643 : ℕ) < (2 : ℝ) ^ (2136 : ℕ) := by
    have h : (10 : ℕ) ^ 643 < 2 ^ 2136 := by norm_num
    exact_mod_cast h
  have h2 : (643 : ℝ) * Real.log 10 < 2136 * Real.log 2 := by
    have hl := Real.log_lt_log (by positivity) hp
    rw [Real.log_pow, Real.log_pow] at hl
    exact_mod_cast hl
  have hlb := Real.log_two_gt_d9
  have hpos : (0 : ℝ) < Real.log 2 := by linarith
  rw [pow_two]
  linarith [mul_lt_mul_of_pos_right hlb hpos]

theorem ideal_size_value_1000 :
    -(((1000 : ℕ) : ℝ) * Real.log (1 / 100)) / Real.log 2 ^ 2 =
      2000 * Real.log 10 / Real.log 2 ^ 2 := by
  rw [one_div, Real.log_inv, show ((100 : ℝ)) = 10 ^ (2 : ℕ) by norm_num,
    Real.log_pow]
  push_cast
  ring

theorem ideal_size_1000_century : BloomFilter.ideal_size 1000 (1 / 100) = 9585 := by
  unfold BloomFilter.ideal_size pyInt
  rw [ideal_size_value_1000]
  have hpos : (0 : ℝ) < Real.log 2 := by linarith [Real.log_two_gt_d9]
  have hpos2 : (0 : ℝ) < Real.log 2 ^ 2 := pow_pos hpos 2
  have hlog10 : (0 : ℝ) < Real.log 10 := Real.log_pos (by norm_num)
  rw [if_pos (by positivity)]
  rw [Int.floor_eq_iff]
  constructor
  · rw [le_div_iff₀ hpos2]
    push_cast
    linarith [log_ratio_lb]
  · rw [div_lt_iff₀ hpos2]
    push_cast
    linarith [log_ratio_ub]

theorem spec_ideal_size_1000_century :
    spec_ideal_size 1000 (1 / 100) = 9586 := by
  unfold spec_ideal_size
  rw [ideal_size_value_1000]
  have hpos : (0 : ℝ) < Real.log 2 := by linarith [Real.log_two_gt_d9]
  have hpos2 : (0 : ℝ) < Real.log 2 ^ 2 := pow_pos hpos 2
  rw [Int.ceil_eq_iff]
  constructor
  · push_cast
    rw [lt_div_iff₀ hpos2]
    linarith [log_ratio_lb]
  · push_cast
    rw [div_le_iff₀ hpos2]
    linarith [log_ratio_ub]

/-- C5 counterexample: the code truncates toward zero instead of taking
the ceiling.  At `expected = 1000, fp_rate = 0.01` the formula value is
strictly between 9585 and 9586: the code returns 9585 while the claimed
`ceil` form gives 9586. -/
theorem ideal_size_cex :
    BloomFilter.ideal_size 1000 (1 / 100) = 9585 ∧
    spec_ideal_size 1000 (1 / 100) = 9586 ∧
    BloomFilter.ideal_size 1000 (1 / 100) ≠ spec_ideal_size 1000 (1 / 100) := by
  refine ⟨ideal_size_1000_century, spec_ideal_size_1000_century, ?hne⟩
  rw [ideal_size_1000_century, spec_ideal_size_1000_century]
  decide

/-- C5 amended: for valid parameters (`expected ≥ 1`, `0 < fp_rate < 1`)
`ideal_size` equals the FLOOR (truncation toward zero of a nonnegative
value) of `-(expected * ln(fp_rate)) / ln(2)^2`, not its ceiling; at
`(1000, 0.01)` this gives 9585. -/
theorem ideal_size_eq_floor (expected : ℕ) (fp_rate : ℝ)
    (hexp : 1 ≤ expected) (h0 : 0 < fp_rate) (h1 : fp_rate < 1) :
    BloomFilter.ideal_size expected fp_rate =
      ⌊-((expected : ℝ) * Real.log fp_rate) / Real.log 2 ^ 2⌋ := by
  unfold BloomFilter.ideal_size pyInt
  rw [if_pos]
  have hlog : Real.log fp_rate < 0 := Real.log_neg h0 h1
  have hnum : (0 : ℝ) ≤ -((expected : ℝ) * Real.log fp_rate) := by
    have he : (0 : ℝ) ≤ (expected : ℝ) := Nat.cast_nonneg _
    nlinarith
  have hden : (0 : ℝ) ≤ Real.log 2 ^ 2 := sq_nonneg _
  exact div_nonneg hnum hden

/-- C5 amended witness: the floor form evaluated at `(1000, 0.01)`. -/
theorem ideal_size_eq_floor_witness :
    1 ≤ 1000 ∧ (0 : ℝ) < 1 / 100 ∧ (1 : ℝ) / 100 < 1 ∧
    BloomFilter.ideal_size 1000 (1 / 100) =
      ⌊-(((1000 : ℕ) : ℝ) * Real.log (1 / 100)) / Real.log 2 ^ 2⌋ :=
  ⟨by decide, by norm_num, by norm_num,
    ideal_size_eq_floor 1000 (1 / 100) (by decide) (by norm_num) (by norm_num)⟩

theorem logb_two_div_ten (x : ℝ) : Real.logb 2 x / 10 = Real.logb 1024 x := by
  rw [Real.logb, Real.logb,
    show ((1024 : ℝ)) = 2 ^ (10 : ℕ) by norm_num, Real.log_pow]
  ring

theorem pyInt_logb_order (size : ℕ) (h : 8 ≤ size) :
    pyInt (Real.logb 2 ((size : ℝ) / 8) / 10) =
      ((Nat.log 1024 (size / 8) : ℕ) : ℤ) := by
  have hx1 : (1 : ℝ) ≤ (size : ℝ) / 8 := by
    rw [le_div_iff₀ (by norm_num)]
    have : (8 : ℝ) ≤ (size : ℝ) := by exact_mod_cast h
    linarith
  rw [logb_two_div_ten]
  unfold pyInt
  rw [if_pos (Real.logb_nonneg (by norm_num) hx1)]
  rw [show ((1024 : ℝ)) = ((1024 : ℕ) : ℝ) by norm_num]
  rw [Real.floor_logb_natCast (by linarith)]
  rw [Int.log_of_one_le_right 1024 hx1]
  congr 1
  rw [show ((8 : ℝ)) = ((8 : ℕ) : ℝ) by norm_num]
  rw [Nat.floor_div_nat ((size : ℕ) : ℝ) 8, Nat.floor_natCast]

/-- C9 counterexample: at `size = 8191` the byte size is exactly 1024,
yet the code picks suffix order 0 (bytes) because it computes the order
from the exact quotient `size / 8 = 1023.875` rather than from the
rounded-up byte count; the spec's largest-suffix rule picks order 1
(kilobytes). -/
theorem bytesize_human_cex :
    BloomFilter.bytesize 8191 = 1024 ∧
    (BloomFilter.bytesize_human 8191).2 = 0 ∧
    (spec_bytesize_human 8191).2 = 1 ∧
    (BloomFilter.bytesize_human 8191).2 ≠ (spec_bytesize_human 8191).2 := by
  have h2 : (BloomFilter.bytesize_human 8191).2 = 0 := by
    unfold BloomFilter.bytesize_human
    simp only [if_neg (by decide : ¬(8191 : ℕ) = 0)]
    rw [pyInt_logb_order 8191 (by norm_num)]
    rw [show (8191 : ℕ) / 8 = 1023 from rfl]
    rw [Nat.log_of_lt (by norm_num)]
    rfl
  have h3 : (spec_bytesize_human 8191).2 = 1 := by
    unfold spec_bytesize_human BloomFilter.bytesize
    rw [show ((8191 : ℕ) + 7) / 8 = 1024 from rfl]
    exact Nat.log_eq_of_pow_le_of_lt_pow (by norm_num) (by norm_num)
  exact ⟨rfl, h2, h3, by rw [h2, h3]; decide⟩

/-- C9 amended: for `size ≥ 8` the suffix order the code selects is the
1024-logarithm of the exact quotient `size / 8` — not of the rounded-up
byte count `ceil(size / 8)` — and the displayed value is the byte count
scaled by that order and rounded to 4 decimal places. -/
theorem bytesize_human_order (size : ℕ) (h : 8 ≤ size) :
    BloomFilter.bytesize_human size =
      (pyRound4 ((BloomFilter.bytesize size : ℝ) /
          ((2 : ℝ) ^ (Nat.log 1024 (size / 8) * 10))),
       Nat.log 1024 (size / 8)) := by
  unfold BloomFilter.bytesize_human
  simp only [if_neg (by omega : ¬size = 0)]
  rw [pyInt_logb_order size h, Int.toNat_natCast]

/-- C9 amended witness: at `size = 16384` (2048 bytes) the order is 1 and
both components agree with the characterization. -/
theorem bytesize_human_order_witness :
    8 ≤ 16384 ∧
    BloomFilter.bytesize_human 16384 =
      (pyRound4 ((BloomFilter.bytesize 16384 : ℝ) /
          ((2 : ℝ) ^ (Nat.log 1024 (16384 / 8) * 10))),
       Nat.log 1024 (16384 / 8)) :=
  ⟨by decide, bytesize_human_order 16384 (by decide)⟩
